import Mathlib

/-!
Verification development for the Lectio indexing-and-query pipeline.

The definitions below are a shallow embedding of the two core source files:
`index_corpus_qdrant.py` (chunk extraction, dimension probing, collection
management, batched upsert) and `lectio_backend.py` (the search service).
Remote collaborators (the Ollama embedding endpoint, the Qdrant store) are
modelled as explicit function parameters or explicit state; the observable
actions of a run (embedding calls, store calls, reports) are collected in
an event trace so that call-counting and call-ordering properties can be
stated and proved.
-/

namespace Lectio

/-! ### Python string primitives

Python `str.strip()` removes leading and trailing whitespace characters;
for the ASCII range these are space, tab, newline, carriage return,
vertical tab and form feed. -/

def pySpace (c : Char) : Bool :=
  c = ' ' || c = '\t' || c = '\n' || c = '\r' || c = '\x0b' || c = '\x0c'

/-- The character list of a string after Python `strip()`: drop whitespace
from the front, then from the back. -/
def trimChars (l : List Char) : List Char :=
  ((l.dropWhile pySpace).reverse.dropWhile pySpace).reverse

/-- Python `text.strip()`. -/
def pyStrip (s : String) : String := String.mk (trimChars s.data)

/-- Python `text.split("\x7b sep \x7d")` specialised to the separator
`"\n\n"` used by `iter_paragraphs`: scan left to right, cutting at each
non-overlapping occurrence of two consecutive newline characters.
The second argument accumulates the current segment in reverse. -/
def splitTwoNl : List Char → List Char → List (List Char)
  | [], acc => [acc.reverse]
  | '\n' :: '\n' :: rest, acc => acc.reverse :: splitTwoNl rest []
  | c :: rest, acc => splitTwoNl rest (c :: acc)

/-- Python `text.split("\n\n")`. -/
def pySplit (s : String) : List String := (splitTwoNl s.data []).map String.mk

/-! ### ChunkExtractor (`iter_paragraphs`, index_corpus_qdrant.py lines 31-49) -/

/-- Source line `raw_paragraphs = [p.strip() for p in text.split("\n\n")]`. -/
def rawParagraphsOf (body : String) : List String := (pySplit body).map pyStrip

/-- Source line `paragraphs = [p for p in raw_paragraphs if len(p) > 40]`. -/
def paragraphsOf (body : String) : List String :=
  (rawParagraphsOf body).filter (fun p => 40 < p.length)

/-- Source loop `for idx, para in enumerate(paragraphs): yield txt_path, idx, para`,
restricted to a single file body: the `(ordinal index, chunk)` pairs. -/
def fileChunks (body : String) : List (Nat × String) := (paragraphsOf body).enum

/-- One retained chunk of the corpus: the payload-defining data
`(file, paragraph_index, text)` yielded by `iter_paragraphs`. -/
structure Chunk where
  file : String
  idx : Nat
  text : String
  deriving DecidableEq, Repr

/-- The function `iter_paragraphs(text_root)` over a corpus given as a list of
`(file path, file contents)` pairs, in traversal order.  Reading errors
and non-`.txt` entries are outside the model: the corpus is already the
list of readable text files. -/
def iter_paragraphs (files : List (String × String)) : List Chunk :=
  files.flatMap (fun f => (fileChunks f.2).map (fun ip => ⟨f.1, ip.1, ip.2⟩))

/-! ### SearchService (`lectio_backend.py`)

The embedding endpoint and the Qdrant client are modelled as function
parameters returning `Except`: an `Except.error` is a raised exception.
The vector type is a type parameter `V`.  A run of the `/search` handler
returns the trace of outbound calls it issued together with its outcome
(an `HTTPException` raised, or the response body). -/

/-- The request body of `POST /search` (`SearchRequest`, lines 45-47):
`top_k` defaults to 5 in the source and carries no range constraint. -/
structure SearchRequest where
  query : String
  top_k : Int
  deriving DecidableEq

/-- A payload as stored in Qdrant; every field may be absent
(`payload.get` is used with defaults in the source). -/
structure PayloadDict where
  file : Option String
  paragraph_index : Option Int
  text : Option String
  deriving DecidableEq

/-- A point returned by `client.search`; `score` and `payload` may both be
absent (`point.score or 0.0`, `point.payload or \x7b\x7d`).  Scores are
modelled as integers: nothing below depends on their arithmetic. -/
structure ScoredPoint where
  score : Option Int
  payload : Option PayloadDict
  deriving DecidableEq

/-- One entry of the response (`SearchResult`, lines 50-54). -/
structure SearchResult where
  score : Int
  file : String
  paragraph_index : Int
  text : String
  deriving DecidableEq

/-- The response body (`SearchResponse`, lines 57-58). -/
structure SearchResponse where
  results : List SearchResult
  deriving DecidableEq

/-- A raised `HTTPException(status_code, detail)`. -/
structure HTTPException where
  status_code : Nat
  detail : String
  deriving DecidableEq

/-- Python `x or d` on an optional number: `None` and `0` are falsy. -/
def pyOrInt : Option Int → Int → Int
  | none, d => d
  | some a, d => if a = 0 then d else a

/-- Source function `point_to_result` (lines 72-79): defensive mapping of one stored point,
defaulting every missing piece. -/
def point_to_result (point : ScoredPoint) : SearchResult :=
  let payload := point.payload.getD ⟨none, none, none⟩
  { score := pyOrInt point.score 0
    file := payload.file.getD ""
    paragraph_index := payload.paragraph_index.getD 0
    text := payload.text.getD "" }

/-- An outbound call issued by the `/search` handler. -/
inductive BCall (V : Type) where
  | embedCall (text : String)
  | storeCall (vector : V) (limit : Int)
  deriving DecidableEq

/-- The `/search` handler (lines 87-110): strip the query; reject the empty
query with a 400; call the embedding service; call the vector store with
`limit = req.top_k` (unvalidated); map the returned points through
`point_to_result`.  Failures of the collaborators surface as 502.  The
first component is the trace of outbound calls. -/
def search {V : Type} (embed : String → Except String V)
    (store : V → Int → Except String (List ScoredPoint))
    (req : SearchRequest) : List (BCall V) × Except HTTPException SearchResponse :=
  let query := pyStrip req.query
  if query = "" then
    ([], Except.error ⟨400, "Query text is empty."⟩)
  else
    match embed query with
    | Except.error e =>
        ([BCall.embedCall query],
          Except.error ⟨502, "Failed to get embedding: " ++ e⟩)
    | Except.ok v =>
        match store v req.top_k with
        | Except.error e =>
            ([BCall.embedCall query, BCall.storeCall v req.top_k],
              Except.error ⟨502, "Qdrant search failed: " ++ e⟩)
        | Except.ok points =>
            ([BCall.embedCall query, BCall.storeCall v req.top_k],
              Except.ok ⟨points.map point_to_result⟩)

/-! ### VectorStore collection lifecycle (`ensure_collection`, lines 68-89)

The Qdrant service is modelled for a single collection name: the state
holds whether the service is reachable and the collection, if it exists,
with its configured vector dimension (`config.params.vectors.size`), the
`vectors_count` it reports, and the ids of its stored points. -/

/-- What `client.get_collection` exposes of an existing collection. -/
structure CollectionInfo where
  size : Nat
  vectors_count : Option Nat
  points : List Nat
  deriving DecidableEq, Repr

/-- The store as seen through the client, for one collection name. -/
structure QdrantState where
  conn_ok : Bool
  collection : Option CollectionInfo
  deriving DecidableEq, Repr

/-- An exception raised by a Qdrant client call. -/
inductive PyErr where
  | notFound
  | connError
  deriving DecidableEq, Repr

/-- Client call `client.get_collection(collection_name)`: raises when the service is
unreachable or the collection does not exist. -/
def get_collection (s : QdrantState) : Except PyErr CollectionInfo :=
  if s.conn_ok then
    match s.collection with
    | some c => Except.ok c
    | none => Except.error PyErr.notFound
  else Except.error PyErr.connError

/-- Client call `client.recreate_collection(...)`: drops the collection and creates a
fresh empty one with the given dimension (all prior points lost). -/
def recreate_collection (s : QdrantState) (dim : Nat) : Except PyErr QdrantState :=
  if s.conn_ok then
    Except.ok { s with collection := some ⟨dim, some 0, []⟩ }
  else Except.error PyErr.connError

/-- Python `x or y` on an optional natural: `None` and `0` are falsy. -/
def pyOrNat : Option Nat → Nat → Nat
  | none, d => d
  | some a, d => if a = 0 then d else a

/-- Source function `ensure_collection(client, collection_name, dim)` (lines 68-89):
`existing_dim = existing.vectors_count or existing.config.params.vectors.size`;
reuse when `existing_dim == dim`, otherwise recreate destructively.
Exceptions of `get_collection` propagate. -/
def ensure_collection (s : QdrantState) (dim : Nat) : Except PyErr QdrantState :=
  match get_collection s with
  | Except.error e => Except.error e
  | Except.ok existing =>
      if pyOrNat existing.vectors_count existing.size = dim then Except.ok s
      else recreate_collection s dim

/-- The `try: ensure_collection ... except Exception: client.recreate_collection ...`
block of `main` (lines 171-180): any exception from `ensure_collection` is
swallowed and answered with a recreation. -/
def ensureStep (s : QdrantState) (dim : Nat) : Except PyErr QdrantState :=
  match ensure_collection s dim with
  | Except.ok s2 => Except.ok s2
  | Except.error _ => recreate_collection s dim

/-! ### IndexingPipeline (`main`, index_corpus_qdrant.py lines 141-218)

Embeddings are integer vectors (`Emb`); the embedding service is a
function parameter.  A run of `main` is modelled as the trace of its
observable actions: embedding calls, the ensure-collection step, upserts
(with their point batches), and the "nothing to index" report. -/

/-- An embedding vector. -/
abbrev Emb := List Int

/-- One point of an upsert batch (`PointStruct(id=pid, vector=emb,
payload=\x7bfile, paragraph_index, text\x7d)`, lines 201-207). -/
structure PointStruct where
  id : Nat
  vector : Emb
  file : String
  paragraph_index : Nat
  text : String
  deriving DecidableEq, Repr

/-- An observable action of an ingestion run. -/
inductive Event where
  | embedCall (c : Chunk)
  | ensureColl (dim : Nat)
  | upsert (points : List PointStruct)
  | reportNothing
  deriving DecidableEq, Repr

/-- The streaming loop of `main` (lines 191-216): pop the next tagged
paragraph, embed it unless its embedding was precomputed, append the point
to the buffer, flush the buffer as an upsert once it reaches the batch
size `B`, and flush the remaining partial buffer at stream end. -/
def streamLoop (embed : String → Emb) (B : Nat) :
    List (Chunk × Option Emb) → List PointStruct → Nat → List Event
  | [], buffer, _ => if buffer = [] then [] else [Event.upsert buffer]
  | (c, maybeEmb) :: rest, buffer, pid =>
      let callEv : List Event :=
        match maybeEmb with
        | none => [Event.embedCall c]
        | some _ => []
      let emb : Emb :=
        match maybeEmb with
        | none => embed c.text
        | some v => v
      let buffer2 := buffer ++ [⟨pid, emb, c.file, c.idx, c.text⟩]
      if B ≤ buffer2.length then
        callEv ++ Event.upsert buffer2 :: streamLoop embed B rest [] (pid + 1)
      else
        callEv ++ streamLoop embed B rest buffer2 (pid + 1)

/-- The trace of one run of `main` on a corpus: when no paragraph is
retained, report and stop before any store operation; otherwise embed the
first paragraph (the probe fixing the dimension), ensure the collection,
and stream all paragraphs — the first one tagged with its already-computed
embedding (`all_paragraphs`, lines 183-186), the rest untagged — with ids
counted from 0. -/
def mainEvents (embed : String → Emb) (B : Nat)
    (files : List (String × String)) : List Event :=
  match iter_paragraphs files with
  | [] => [Event.reportNothing]
  | first :: rest =>
      Event.embedCall first
        :: Event.ensureColl (embed first.text).length
        :: streamLoop embed B
            ((first, some (embed first.text)) :: rest.map (fun c => (c, none)))
            [] 0

/-- The chunks sent to the embedding service during a run, in order. -/
def embedLog (evs : List Event) : List Chunk :=
  evs.filterMap (fun e =>
    match e with
    | Event.embedCall c => some c
    | _ => none)

/-- The upsert batches issued during a run, in order. -/
def upsertLog (evs : List Event) : List (List PointStruct) :=
  evs.filterMap (fun e =>
    match e with
    | Event.upsert ps => some ps
    | _ => none)

/-- Whether an event is an operation against the vector store. -/
def isStoreEvent : Event → Bool
  | Event.ensureColl _ => true
  | Event.upsert _ => true
  | _ => false

/-- The points the streaming loop builds from a tagged paragraph queue,
with ids counted from `pid`. -/
def pointsFrom (embed : String → Emb) : Nat → List (Chunk × Option Emb) → List PointStruct
  | _, [] => []
  | pid, (c, maybeEmb) :: rest =>
      ⟨pid,
        (match maybeEmb with
         | none => embed c.text
         | some v => v),
        c.file, c.idx, c.text⟩ :: pointsFrom embed (pid + 1) rest

/-- Cut a list into consecutive chunks of `B` elements, the last chunk
possibly shorter. -/
def chunksOf (B : Nat) : List α → List (List α)
  | [] => []
  | x :: xs => (x :: xs.take (B - 1)) :: chunksOf B (xs.drop (B - 1))
termination_by l => l.length
decreasing_by simp [List.length_drop]; omega

/-! ### Concrete corpora for witnesses -/

/-- A fixed embedding service used by witnesses. -/
def demoEmbed : String → Emb := fun _ => [1, 2]

/-- A one-file corpus with three retained paragraphs. -/
def demoFiles : List (String × String) :=
  [("a.txt",
    "The first paragraph is longer than forty characters.\n\nThe second paragraph is longer than forty characters.\n\nThe third paragraph is longer than forty characters.")]

/-- A one-file corpus in which every paragraph is too short to retain. -/
def emptyFiles : List (String × String) := [("a.txt", "Short.\n\nTiny.")]

/-! ### Facts about Python `strip` -/

theorem dropWhile_head_not (p : α → Bool) (l : List α) (a : α)
    (h : (l.dropWhile p).head? = some a) : p a = false := by
  have := List.head?_dropWhile_not p l
  rw [h] at this
  exact this

theorem dropWhile_of_head_not (p : α → Bool) (l : List α)
    (h : ∀ a, l.head? = some a → p a = false) : l.dropWhile p = l := by
  cases l with
  | nil => rfl
  | cons x xs =>
    have hx : p x = false := h x rfl
    simp [List.dropWhile_cons, hx]

theorem dropWhile_idem (p : α → Bool) (l : List α) :
    (l.dropWhile p).dropWhile p = l.dropWhile p := by
  apply dropWhile_of_head_not
  intro a ha
  exact dropWhile_head_not p l a ha

theorem getLast?_dropWhile (p : α → Bool) (l : List α)
    (h : l.dropWhile p ≠ []) : (l.dropWhile p).getLast? = l.getLast? := by
  induction l with
  | nil => simp at h
  | cons x xs ih =>
    by_cases hx : p x
    · rw [List.dropWhile_cons_of_pos hx] at h ⊢
      rcases hxs : xs with _ | ⟨y, ys⟩
      · subst hxs; simp at h
      · subst hxs
        rw [List.getLast?_cons_cons]
        exact ih h
    · rw [List.dropWhile_cons_of_neg hx]

theorem trimChars_idem (l : List Char) : trimChars (trimChars l) = trimChars l := by
  unfold trimChars
  set A := l.dropWhile pySpace with hA
  set B := A.reverse.dropWhile pySpace with hB
  rcases hBe : B with _ | ⟨b, bs⟩
  · simp [hBe]
  · have hBne : B ≠ [] := by rw [hBe]; exact List.cons_ne_nil _ _
    have h1 : B.reverse.dropWhile pySpace = B.reverse := by
      apply dropWhile_of_head_not
      intro a ha
      rw [List.head?_reverse] at ha
      have hgl : B.getLast? = A.head? := by
        rw [hB, getLast?_dropWhile _ _ (hB ▸ hBne), List.getLast?_reverse]
      rw [hgl] at ha
      have hAne : A ≠ [] := by
        intro hAe
        apply hBne
        rw [hB, hAe]
        simp
      exact dropWhile_head_not pySpace l a (hA ▸ ha)
    rw [← hBe, h1, List.reverse_reverse]
    have h2 : B.dropWhile pySpace = B := by
      rw [hB, dropWhile_idem]
    rw [h2]

theorem pyStrip_idem (s : String) : pyStrip (pyStrip s) = pyStrip s := by
  unfold pyStrip
  rw [show (String.mk (trimChars s.data)).data = trimChars s.data from rfl,
    trimChars_idem]

/-! ### C4 -/

/-- C4. For every text body, the chunk sequence produced by the extractor
is exactly: split the body at blank-line boundaries (the `"\n\n"` paragraph
separator), trim each segment, discard segments whose trimmed length is at
most 40; every retained chunk has trimmed length above 40, and the ordinal
indices assigned to the retained chunks are exactly `0..n-1` in document
order, with no gaps from discarded segments. -/
theorem fileChunks_spec (body : String) :
    fileChunks body
      = (((pySplit body).map pyStrip).filter (fun p => 40 < p.length)).enum
    ∧ (∀ ip ∈ fileChunks body, 40 < (pyStrip ip.2).length)
    ∧ (fileChunks body).map Prod.fst = List.range (fileChunks body).length := by
  refine ⟨rfl, ?_, ?_⟩
  · intro ip hip
    have hmem : ip.2 ∈ paragraphsOf body := by
      have := List.snd_mem_of_mem_enumFrom (n := 0) hip
      simpa using this
    have hlen : 40 < ip.2.length := by
      have := List.of_mem_filter hmem
      simpa using this
    have hraw : ip.2 ∈ rawParagraphsOf body := List.mem_of_mem_filter hmem
    rcases List.mem_map.1 hraw with ⟨q, _, hq⟩
    rw [← hq, pyStrip_idem, hq]
    exact hlen
  · rw [show (fileChunks body).length = (paragraphsOf body).length from
      List.enum_length]
    exact List.enum_map_fst _

/-! ### C3 -/

/-- C3. A query that is empty after trimming is rejected with a 400
validation error before any outbound call: the embedding service is never
reached. -/
theorem search_empty_query_rejected {V : Type} (embed : String → Except String V)
    (store : V → Int → Except String (List ScoredPoint))
    (req : SearchRequest) (h : pyStrip req.query = "") :
    (search embed store req).2 = Except.error ⟨400, "Query text is empty."⟩
    ∧ (search embed store req).1 = []
    ∧ ∀ t, BCall.embedCall t ∉ (search embed store req).1 := by
  have hs : search embed store req = ([], Except.error ⟨400, "Query text is empty."⟩) := by
    unfold search
    rw [h]
    rfl
  refine ⟨by rw [hs], by rw [hs], ?_⟩
  intro t
  rw [hs]
  simp

theorem search_empty_query_rejected_witness :
    pyStrip "   " = ""
    ∧ ((search (fun _ => Except.ok (0 : Int)) (fun _ _ => Except.ok [])
          ⟨"   ", 5⟩).2 = Except.error ⟨400, "Query text is empty."⟩
      ∧ (search (fun _ => Except.ok (0 : Int)) (fun _ _ => Except.ok [])
          ⟨"   ", 5⟩).1 = []
      ∧ ∀ t, BCall.embedCall t ∉ (search (fun _ => Except.ok (0 : Int))
          (fun _ _ => Except.ok []) ⟨"   ", 5⟩).1) :=
  ⟨by decide, search_empty_query_rejected _ _ _ (by decide)⟩

/-! ### C2

The source performs no validation of `top_k` at all: a request with
`top_k < 1` is neither rejected nor clamped; the raw value is passed to
the vector store as the search limit. -/

/-- C2 counterexample. A request with `top_k = 0 < 1` and a non-empty query
is not rejected: the handler answers 200 with an (empty) result list, and
the store is called with the unclamped limit 0. -/
theorem search_topk_zero_not_rejected :
    (search (fun _ => Except.ok (0 : Int)) (fun _ _ => Except.ok [])
        ⟨"a sufficiently long nonempty query", 0⟩).2 = Except.ok ⟨[]⟩
    ∧ BCall.storeCall (0 : Int) (0 : Int)
        ∈ (search (fun _ => Except.ok (0 : Int)) (fun _ _ => Except.ok [])
            ⟨"a sufficiently long nonempty query", 0⟩).1 := by
  constructor
  · rfl
  · decide

/-- C2 amended. For every request whose `top_k` is below 1 (and whose
trimmed query is non-empty, with the embedding call succeeding), `search`
does not reject the request: it forwards `top_k` unchanged to the vector
store as the limit. -/
theorem search_forwards_topk {V : Type} (embed : String → Except String V)
    (store : V → Int → Except String (List ScoredPoint))
    (req : SearchRequest) (v : V)
    (_hk : req.top_k < 1)
    (hq : ¬ pyStrip req.query = "")
    (he : embed (pyStrip req.query) = Except.ok v) :
    BCall.storeCall v req.top_k ∈ (search embed store req).1 := by
  unfold search
  rw [if_neg hq, he]
  cases h2 : store v req.top_k <;> simp [h2]

theorem search_forwards_topk_witness :
    ((0 : Int) < 1
      ∧ ¬ pyStrip "hello there" = ""
      ∧ (fun (_ : String) => (Except.ok 0 : Except String Int)) (pyStrip "hello there")
          = Except.ok 0)
    ∧ BCall.storeCall (0 : Int) (0 : Int)
        ∈ (search (fun _ => Except.ok (0 : Int)) (fun _ _ => Except.ok [])
            ⟨"hello there", 0⟩).1 :=
  ⟨⟨by decide, by decide, rfl⟩,
    search_forwards_topk _ _ ⟨"hello there", 0⟩ 0 (by decide) (by decide) rfl⟩

/-! ### C9 -/

/-- C9. The handler is insensitive to leading and trailing whitespace in
the query: two requests whose queries agree after trimming and whose
`top_k` agree behave identically — same outbound calls (so the same text
is sent to the embedding service) and same response. -/
theorem search_trim_insensitive {V : Type} (embed : String → Except String V)
    (store : V → Int → Except String (List ScoredPoint))
    (q1 q2 : String) (k : Int) (h : pyStrip q1 = pyStrip q2) :
    search embed store ⟨q1, k⟩ = search embed store ⟨q2, k⟩ := by
  unfold search
  rw [show pyStrip (SearchRequest.mk q1 k).query = pyStrip q2 from h]

theorem search_trim_insensitive_witness :
    pyStrip "  hello  " = pyStrip "hello"
    ∧ search (fun _ => Except.ok (0 : Int)) (fun _ _ => Except.ok [])
          ⟨"  hello  ", 5⟩
        = search (fun _ => Except.ok (0 : Int)) (fun _ _ => Except.ok [])
          ⟨"hello", 5⟩ :=
  ⟨by decide, search_trim_insensitive _ _ "  hello  " "hello" 5 (by decide)⟩

/-! ### C8 -/

/-- C8. Point mapping is defensive: an absent payload, or a missing
`file`, `paragraph_index` or `text` field, defaults to the empty string or
zero in the corresponding `SearchResult`; every returned point yields
exactly one result (a malformed point never aborts the response), and the
whole successful response is exactly the pointwise mapping. -/
theorem point_to_result_defensive {V : Type} (embed : String → Except String V)
    (store : V → Int → Except String (List ScoredPoint))
    (req : SearchRequest) (v : V) (pts : List ScoredPoint) (p : ScoredPoint)
    (hq : ¬ pyStrip req.query = "")
    (he : embed (pyStrip req.query) = Except.ok v)
    (hs : store v req.top_k = Except.ok pts)
    (hp : p ∈ pts) :
    (search embed store req).2 = Except.ok ⟨pts.map point_to_result⟩
    ∧ (pts.map point_to_result).length = pts.length
    ∧ point_to_result p ∈ pts.map point_to_result
    ∧ (p.payload = none →
        point_to_result p = ⟨pyOrInt p.score 0, "", 0, ""⟩)
    ∧ (∀ pl, p.payload = some pl →
        (pl.file = none → (point_to_result p).file = "")
        ∧ (pl.paragraph_index = none → (point_to_result p).paragraph_index = 0)
        ∧ (pl.text = none → (point_to_result p).text = "")) := by
  refine ⟨?_, List.length_map _ _, List.mem_map_of_mem _ hp, ?_, ?_⟩
  · simp [search, hq, he, hs]
  · intro hnone
    simp [point_to_result, hnone]
  · intro pl hpl
    refine ⟨fun hf => ?_, fun hi => ?_, fun ht => ?_⟩
    · simp [point_to_result, hpl, hf]
    · simp [point_to_result, hpl, hi]
    · simp [point_to_result, hpl, ht]

theorem point_to_result_defensive_witness :
    (¬ pyStrip "hello there" = ""
      ∧ (fun (_ : String) => (Except.ok 0 : Except String Int)) (pyStrip "hello there")
          = Except.ok 0
      ∧ (fun (_ : Int) (_ : Int) =>
            (Except.ok [ScoredPoint.mk none none]
              : Except String (List ScoredPoint))) 0 (5 : Int)
          = Except.ok [ScoredPoint.mk none none]
      ∧ ScoredPoint.mk none none ∈ [ScoredPoint.mk none none])
    ∧ ((search (fun _ => Except.ok (0 : Int))
          (fun _ _ => Except.ok [ScoredPoint.mk none none])
          ⟨"hello there", 5⟩).2
        = Except.ok ⟨[ScoredPoint.mk none none].map point_to_result⟩
      ∧ ([ScoredPoint.mk none none].map point_to_result).length
          = [ScoredPoint.mk none none].length
      ∧ point_to_result (ScoredPoint.mk none none)
          ∈ [ScoredPoint.mk none none].map point_to_result
      ∧ ((ScoredPoint.mk none none).payload = none →
          point_to_result (ScoredPoint.mk none none)
            = ⟨pyOrInt (ScoredPoint.mk none none).score 0, "", 0, ""⟩)
      ∧ (∀ pl, (ScoredPoint.mk none none).payload = some pl →
          (pl.file = none → (point_to_result (ScoredPoint.mk none none)).file = "")
          ∧ (pl.paragraph_index = none →
              (point_to_result (ScoredPoint.mk none none)).paragraph_index = 0)
          ∧ (pl.text = none →
              (point_to_result (ScoredPoint.mk none none)).text = ""))) :=
  ⟨⟨by decide, rfl, rfl, by decide⟩,
    point_to_result_defensive _ _ ⟨"hello there", 5⟩ 0 _ _
      (by decide) rfl rfl (by decide)⟩

/-! ### C1

The claim (and the function's own docstring: reuse when the dimension
matches) fails on the code: `existing_dim` is computed from
`vectors_count`, which is the number of stored vectors, not the
dimension.  As soon as the collection holds a number of points different
from its dimension, a second call with the very same `(name, dim)`
destructively recreates the collection and all points are lost. -/

/-- C1. Failing run of the code: the collection exists with dimension 4
and holds 7 points (`vectors_count = 7`).  `ensure_collection` with the
same dimension 4 compares `7 ≠ 4` and destructively recreates: the
resulting collection is empty, the 7 points are gone. -/
theorem ensure_collection_same_dim_destroys :
    (CollectionInfo.mk 4 (some 7) [0, 1, 2, 3, 4, 5, 6]).size = 4
    ∧ ensure_collection ⟨true, some ⟨4, some 7, [0, 1, 2, 3, 4, 5, 6]⟩⟩ 4
        = Except.ok ⟨true, some ⟨4, some 0, []⟩⟩
    ∧ (CollectionInfo.mk 4 (some 7) [0, 1, 2, 3, 4, 5, 6]).points ≠ [] :=
  ⟨rfl, rfl, by decide⟩

/-! ### C10 -/

/-- C10. Whenever `ensure_collection` raises — the collection-absent case
and the connectivity-failure case alike — `main` swallows the exception
and issues `recreate_collection`: the step behaves exactly as the
recreation call, and the original error is not propagated. -/
theorem ensure_failure_swallowed (s : QdrantState) (dim : Nat) (e : PyErr)
    (h : ensure_collection s dim = Except.error e) :
    ensureStep s dim = recreate_collection s dim := by
  unfold ensureStep
  rw [h]

theorem ensure_failure_swallowed_witness :
    ensure_collection ⟨false, some ⟨4, some 0, []⟩⟩ 4
        = Except.error PyErr.connError
    ∧ ensureStep ⟨false, some ⟨4, some 0, []⟩⟩ 4
        = recreate_collection ⟨false, some ⟨4, some 0, []⟩⟩ 4 :=
  ⟨rfl, ensure_failure_swallowed _ 4 PyErr.connError rfl⟩

/-! ### Facts about `chunksOf` -/

theorem chunksOf_nil (B : Nat) : chunksOf B ([] : List α) = [] := by
  rw [chunksOf]

theorem chunksOf_cons_eq {B : Nat} (hB : 1 ≤ B) (x : α) (xs : List α) :
    chunksOf B (x :: xs) = (x :: xs).take B :: chunksOf B ((x :: xs).drop B) := by
  obtain ⟨b, rfl⟩ : ∃ b, B = b + 1 := ⟨B - 1, by omega⟩
  rw [chunksOf]
  simp

theorem chunksOf_ne_nil {B : Nat} (l : List α) (hl : l ≠ []) :
    chunksOf B l ≠ [] := by
  cases l with
  | nil => exact absurd rfl hl
  | cons x xs =>
    rw [chunksOf]
    exact List.cons_ne_nil _ _

theorem flatten_chunksOf_aux (B : Nat) :
    ∀ (n : Nat) (l : List α), l.length ≤ n → (chunksOf B l).flatten = l := by
  intro n
  induction n with
  | zero =>
    intro l hl
    have : l = [] := List.eq_nil_of_length_eq_zero (by omega)
    subst this
    rw [chunksOf_nil]
    rfl
  | succ n ih =>
    intro l hl
    cases l with
    | nil =>
      rw [chunksOf_nil]
      rfl
    | cons x xs =>
      rw [chunksOf]
      simp only [List.flatten_cons, List.cons_append]
      congr 1
      rw [ih (xs.drop (B - 1)) (by simp only [List.length_drop]; simp at hl; omega)]
      exact List.take_append_drop _ _

theorem flatten_chunksOf (B : Nat) (l : List α) : (chunksOf B l).flatten = l :=
  flatten_chunksOf_aux B l.length l le_rfl

theorem chunksOf_length_aux {B : Nat} (hB : 1 ≤ B) :
    ∀ (n : Nat) (l : List α), l.length ≤ n →
      (chunksOf B l).length = (l.length + B - 1) / B := by
  intro n
  induction n with
  | zero =>
    intro l hl
    have : l = [] := List.eq_nil_of_length_eq_zero (by omega)
    subst this
    rw [chunksOf_nil]
    simp only [List.length_nil]
    exact (Nat.div_eq_of_lt (by omega)).symm
  | succ n ih =>
    intro l hl
    cases l with
    | nil =>
      rw [chunksOf_nil]
      simp only [List.length_nil]
      exact (Nat.div_eq_of_lt (by omega)).symm
    | cons x xs =>
      rw [chunksOf]
      simp only [List.length_cons]
      rw [ih (xs.drop (B - 1)) (by simp only [List.length_drop]; simp at hl; omega)]
      simp only [List.length_drop]
      rcases Nat.le_total (B - 1) xs.length with hc | hc
      · have h1 : xs.length - (B - 1) + B - 1 = xs.length := by omega
        have h2 : xs.length + 1 + B - 1 = xs.length + B := by omega
        rw [h1, h2, Nat.add_div_right _ (by omega)]
      · have h1 : xs.length - (B - 1) = 0 := by omega
        rw [h1]
        have h2 : (0 + B - 1) / B = 0 := Nat.div_eq_of_lt (by omega)
        rw [h2]
        have h3 : (xs.length + 1 + B - 1) / B = 1 := by
          apply Nat.div_eq_of_lt_le
          · omega
          · omega
        omega

theorem chunksOf_length {B : Nat} (hB : 1 ≤ B) (l : List α) :
    (chunksOf B l).length = (l.length + B - 1) / B :=
  chunksOf_length_aux hB l.length l le_rfl

theorem chunksOf_dropLast_aux {B : Nat} (hB : 1 ≤ B) :
    ∀ (n : Nat) (l : List α), l.length ≤ n →
      ∀ c ∈ (chunksOf B l).dropLast, c.length = B := by
  intro n
  induction n with
  | zero =>
    intro l hl
    have : l = [] := List.eq_nil_of_length_eq_zero (by omega)
    subst this
    simp [chunksOf]
  | succ n ih =>
    intro l hl c hc
    cases l with
    | nil => simp [chunksOf] at hc
    | cons x xs =>
      rw [chunksOf] at hc
      rcases hrest : chunksOf B (xs.drop (B - 1)) with _ | ⟨r, rs⟩
      · rw [hrest] at hc
        simp at hc
      · rw [hrest] at hc
        rw [List.dropLast_cons₂] at hc
        rcases List.mem_cons.1 hc with h1 | h1
        · subst h1
          have hd : xs.drop (B - 1) ≠ [] := by
            intro hd
            rw [hd] at hrest
            simp [chunksOf] at hrest
          have hlen : B - 1 ≤ xs.length := by
            by_contra hlt
            exact hd (List.drop_eq_nil_of_le (by omega))
          simp only [List.length_cons, List.length_take]
          omega
        · exact ih (xs.drop (B - 1))
            (by simp only [List.length_drop]; simp at hl; omega) c (hrest ▸ h1)

theorem chunksOf_dropLast {B : Nat} (hB : 1 ≤ B) (l : List α) :
    ∀ c ∈ (chunksOf B l).dropLast, c.length = B :=
  chunksOf_dropLast_aux hB l.length l le_rfl

theorem chunksOf_getLast_aux {B : Nat} (hB : 1 ≤ B) :
    ∀ (n : Nat) (l : List α), l.length ≤ n →
      ∀ c, (chunksOf B l).getLast? = some c →
        c.length = if l.length % B = 0 then B else l.length % B := by
  intro n
  induction n with
  | zero =>
    intro l hl c hc
    have : l = [] := List.eq_nil_of_length_eq_zero (by omega)
    subst this
    simp [chunksOf] at hc
  | succ n ih =>
    intro l hl c hc
    cases l with
    | nil => simp [chunksOf] at hc
    | cons x xs =>
      rw [chunksOf] at hc
      rcases hrest : chunksOf B (xs.drop (B - 1)) with _ | ⟨r, rs⟩
      · rw [hrest] at hc
        simp at hc
        have hd : xs.drop (B - 1) = [] := by
          by_contra hd
          exact chunksOf_ne_nil _ hd hrest
        have hlen : xs.length ≤ B - 1 := by
          by_contra hlt
          have : xs.length - (B - 1) = 0 := by
            rw [← List.length_drop, hd]
            rfl
          omega
        subst hc
        simp only [List.length_cons, List.length_take]
        have hmin : min (B - 1) xs.length = xs.length := by omega
        rw [hmin]
        rcases Nat.lt_or_ge (xs.length + 1) B with hlt | hge
        · rw [if_neg (by rw [Nat.mod_eq_of_lt hlt]; omega), Nat.mod_eq_of_lt hlt]
        · have heq : xs.length + 1 = B := by omega
          rw [heq]
          simp
      · rw [hrest] at hc
        rw [List.getLast?_cons_cons] at hc
        have hd : xs.drop (B - 1) ≠ [] := by
          intro hd
          rw [hd] at hrest
          simp [chunksOf] at hrest
        have hlen : B - 1 ≤ xs.length := by
          by_contra hlt
          exact hd (List.drop_eq_nil_of_le (by omega))
        have hdlen : xs.length - (B - 1) ≥ 1 := by
          have := List.length_pos.2 hd
          simp only [List.length_drop] at this
          omega
        have := ih (xs.drop (B - 1))
          (by simp only [List.length_drop]; simp at hl; omega) c (hrest ▸ hc)
        simp only [List.length_drop] at this
        have hmod : (xs.length - (B - 1)) % B = (xs.length + 1) % B := by
          have h1 : xs.length + 1 = (xs.length - (B - 1)) + B := by omega
          rw [h1, Nat.add_mod_right]
        rw [hmod] at this
        simpa using this

theorem chunksOf_getLast {B : Nat} (hB : 1 ≤ B) (l : List α) :
    ∀ c, (chunksOf B l).getLast? = some c →
      c.length = if l.length % B = 0 then B else l.length % B :=
  chunksOf_getLast_aux hB l.length l le_rfl

/-! ### Facts about the streaming loop -/

theorem chunksOf_append_of_length_eq {B : Nat} (hB : 1 ≤ B)
    (l1 l2 : List α) (h : l1.length = B) :
    chunksOf B (l1 ++ l2) = l1 :: chunksOf B l2 := by
  cases l1 with
  | nil => simp at h; omega
  | cons x xs =>
    rw [List.cons_append, chunksOf_cons_eq hB, ← List.cons_append]
    congr 1
    · rw [List.take_append_eq_append_take,
        List.take_of_length_le (by omega), h]
      simp
    · rw [List.drop_append_eq_append_drop,
        List.drop_eq_nil_of_le (by omega), h]
      simp

theorem pointsFrom_length (embed : String → Emb) :
    ∀ (pid : Nat) (queue : List (Chunk × Option Emb)),
      (pointsFrom embed pid queue).length = queue.length := by
  intro pid queue
  induction queue generalizing pid with
  | nil => rfl
  | cons q rest ih =>
    obtain ⟨c, maybeEmb⟩ := q
    simp [pointsFrom, ih]

theorem pointsFrom_map_vector (embed : String → Emb) :
    ∀ (pid : Nat) (queue : List (Chunk × Option Emb)),
      (pointsFrom embed pid queue).map PointStruct.vector
        = queue.map (fun q =>
            match q.2 with
            | none => embed q.1.text
            | some v => v) := by
  intro pid queue
  induction queue generalizing pid with
  | nil => rfl
  | cons q rest ih =>
    obtain ⟨c, maybeEmb⟩ := q
    simp only [pointsFrom, List.map_cons, ih]

theorem upsertLog_append (l1 l2 : List Event) :
    upsertLog (l1 ++ l2) = upsertLog l1 ++ upsertLog l2 :=
  List.filterMap_append _ _ _

theorem upsertLog_cons_upsert (ps : List PointStruct) (evs : List Event) :
    upsertLog (Event.upsert ps :: evs) = ps :: upsertLog evs := rfl

theorem embedLog_append (l1 l2 : List Event) :
    embedLog (l1 ++ l2) = embedLog l1 ++ embedLog l2 :=
  List.filterMap_append _ _ _

theorem pointsFrom_cons (embed : String → Emb) (pid : Nat) (c : Chunk)
    (me : Option Emb) (rest : List (Chunk × Option Emb)) :
    pointsFrom embed pid ((c, me) :: rest)
      = ⟨pid,
          (match me with
           | none => embed c.text
           | some v => v),
          c.file, c.idx, c.text⟩ :: pointsFrom embed (pid + 1) rest := rfl

theorem chunksOf_append_cons_of_length {B : Nat} (hB : 1 ≤ B)
    (l1 : List α) (x : α) (l2 : List α) (h : l1.length + 1 = B) :
    chunksOf B (l1 ++ x :: l2) = (l1 ++ [x]) :: chunksOf B l2 := by
  have hx : l1 ++ x :: l2 = (l1 ++ [x]) ++ l2 := by simp
  rw [hx, chunksOf_append_of_length_eq hB _ _ (by simp; omega)]

theorem streamLoop_upsertLog (embed : String → Emb) {B : Nat} (hB : 1 ≤ B) :
    ∀ (queue : List (Chunk × Option Emb)) (buffer : List PointStruct) (pid : Nat),
      buffer.length < B →
      upsertLog (streamLoop embed B queue buffer pid)
        = chunksOf B (buffer ++ pointsFrom embed pid queue) := by
  intro queue
  induction queue with
  | nil =>
    intro buffer pid hbuf
    rcases hb : buffer with _ | ⟨b, bs⟩
    · simp [streamLoop, upsertLog, pointsFrom, chunksOf_nil]
    · rw [streamLoop, if_neg (by simp), pointsFrom, List.append_nil,
        chunksOf_cons_eq hB, List.take_of_length_le (by rw [← hb]; omega),
        List.drop_eq_nil_of_le (by rw [← hb]; omega), chunksOf_nil]
      simp [upsertLog]
  | cons q rest ih =>
    intro buffer pid hbuf
    obtain ⟨c, maybeEmb⟩ := q
    rcases maybeEmb with _ | v
    · simp only [streamLoop]
      split
      next hflush =>
        have hlen : buffer.length + 1 = B := by
          simp only [List.length_append, List.length_cons, List.length_nil] at hflush
          omega
        rw [upsertLog_append, show upsertLog [Event.embedCall c] = [] from rfl,
          upsertLog_cons_upsert, ih [] (pid + 1) (by simpa using hB),
          pointsFrom_cons, chunksOf_append_cons_of_length hB _ _ _ hlen]
        simp
      next hflush =>
        rw [upsertLog_append, show upsertLog [Event.embedCall c] = [] from rfl,
          ih _ (pid + 1) (by
            simp only [List.length_append, List.length_cons, List.length_nil] at hflush ⊢
            omega),
          pointsFrom_cons]
        simp
    · simp only [streamLoop]
      split
      next hflush =>
        have hlen : buffer.length + 1 = B := by
          simp only [List.length_append, List.length_cons, List.length_nil] at hflush
          omega
        rw [List.nil_append, upsertLog_cons_upsert,
          ih [] (pid + 1) (by simpa using hB),
          pointsFrom_cons, chunksOf_append_cons_of_length hB _ _ _ hlen]
        simp
      next hflush =>
        rw [List.nil_append,
          ih _ (pid + 1) (by
            simp only [List.length_append, List.length_cons, List.length_nil] at hflush ⊢
            omega),
          pointsFrom_cons]
        simp

theorem upsertLog_nil : upsertLog [] = [] := rfl

theorem upsertLog_cons_embed (c : Chunk) (evs : List Event) :
    upsertLog (Event.embedCall c :: evs) = upsertLog evs := rfl

theorem upsertLog_cons_ensure (d : Nat) (evs : List Event) :
    upsertLog (Event.ensureColl d :: evs) = upsertLog evs := rfl

theorem embedLog_nil : embedLog [] = [] := rfl

theorem embedLog_cons_embed (c : Chunk) (evs : List Event) :
    embedLog (Event.embedCall c :: evs) = c :: embedLog evs := rfl

theorem embedLog_cons_upsert (ps : List PointStruct) (evs : List Event) :
    embedLog (Event.upsert ps :: evs) = embedLog evs := rfl

theorem embedLog_cons_ensure (d : Nat) (evs : List Event) :
    embedLog (Event.ensureColl d :: evs) = embedLog evs := rfl

theorem streamLoop_embedLog (embed : String → Emb) (B : Nat) :
    ∀ (queue : List (Chunk × Option Emb)) (buffer : List PointStruct) (pid : Nat),
      embedLog (streamLoop embed B queue buffer pid)
        = queue.filterMap (fun q =>
            match q.2 with
            | none => some q.1
            | some _ => none) := by
  intro queue
  induction queue with
  | nil =>
    intro buffer pid
    rcases buffer with _ | ⟨b, bs⟩
    · simp [streamLoop, embedLog]
    · rw [streamLoop, if_neg (by simp)]
      rfl
  | cons q rest ih =>
    intro buffer pid
    obtain ⟨c, maybeEmb⟩ := q
    rcases maybeEmb with _ | v
    · simp only [streamLoop]
      split
      next =>
        rw [embedLog_append, embedLog_cons_embed, embedLog_cons_upsert, ih]
        simp [embedLog_nil, List.filterMap_cons]
      next =>
        rw [embedLog_append, embedLog_cons_embed, ih]
        simp [embedLog_nil, List.filterMap_cons]
    · simp only [streamLoop]
      split
      next =>
        rw [List.nil_append, embedLog_cons_upsert, ih]
        simp [List.filterMap_cons]
      next =>
        rw [List.nil_append, ih]
        simp [List.filterMap_cons]

theorem filterMap_untag (rest : List Chunk) :
    (rest.map (fun c => (c, (none : Option Emb)))).filterMap (fun q =>
      match q.2 with
      | none => some q.1
      | some _ => none) = rest := by
  induction rest with
  | nil => rfl
  | cons c cs ih => simp [List.filterMap_cons, ih]

theorem map_resolve_untag (embed : String → Emb) (rest : List Chunk) :
    (rest.map (fun c => (c, (none : Option Emb)))).map (fun q =>
      match q.2 with
      | none => embed q.1.text
      | some v => v) = rest.map (fun c => embed c.text) := by
  rw [List.map_map]
  rfl

/-! ### C5 -/

/-- C5. For a corpus yielding at least one chunk and a batch size of at
least 1, the run issues exactly `ceil(N / B)` upsert calls; every call but
the last carries exactly `B` points, and the last carries `N % B` points,
or `B` when `B` divides `N` evenly. -/
theorem upsert_batches_spec (embed : String → Emb) (B : Nat)
    (files : List (String × String)) (hB : 1 ≤ B)
    (hN : iter_paragraphs files ≠ []) :
    (upsertLog (mainEvents embed B files)).length
        = ((iter_paragraphs files).length + B - 1) / B
    ∧ upsertLog (mainEvents embed B files) ≠ []
    ∧ (∀ b ∈ (upsertLog (mainEvents embed B files)).dropLast, b.length = B)
    ∧ (∀ b, (upsertLog (mainEvents embed B files)).getLast? = some b →
        b.length = if (iter_paragraphs files).length % B = 0 then B
          else (iter_paragraphs files).length % B) := by
  rcases h : iter_paragraphs files with _ | ⟨first, rest⟩
  · exact absurd h hN
  · have hup : upsertLog (mainEvents embed B files)
        = chunksOf B (pointsFrom embed 0 ((first, some (embed first.text))
            :: rest.map (fun c => (c, none)))) := by
      simp only [mainEvents, h]
      rw [upsertLog_cons_embed, upsertLog_cons_ensure,
        streamLoop_upsertLog embed hB _ [] 0 (by simpa using hB),
        List.nil_append]
    have hlen : (pointsFrom embed 0 ((first, some (embed first.text))
        :: rest.map (fun c => (c, none)))).length
          = (iter_paragraphs files).length := by
      rw [pointsFrom_length, h]
      simp
    refine ⟨?_, ?_, ?_, ?_⟩
    · rw [hup, chunksOf_length hB, hlen, h]
    · rw [hup]
      apply chunksOf_ne_nil
      intro hnil
      have hc := congrArg List.length hnil
      rw [pointsFrom_length] at hc
      simp at hc
    · rw [hup]
      exact chunksOf_dropLast hB _
    · rw [hup]
      intro b hb
      have hg := chunksOf_getLast hB _ b hb
      rw [hlen, h] at hg
      exact hg

/-! ### C6 -/

/-- C6. Every chunk of the corpus is sent to the embedding service exactly
once, in order: the probe chunk that fixed the collection dimension is not
re-embedded during streaming, and the vector of every upserted point —
the probe's point included — is the embedding of its chunk's text. -/
theorem probe_embedding_reused (embed : String → Emb) (B : Nat)
    (files : List (String × String)) (hB : 1 ≤ B) :
    embedLog (mainEvents embed B files) = iter_paragraphs files
    ∧ (upsertLog (mainEvents embed B files)).flatten.map PointStruct.vector
        = (iter_paragraphs files).map (fun c => embed c.text) := by
  rcases h : iter_paragraphs files with _ | ⟨first, rest⟩
  · constructor
    · simp [mainEvents, h, embedLog]
    · simp [mainEvents, h, upsertLog]
  · constructor
    · simp only [mainEvents, h]
      rw [embedLog_cons_embed, embedLog_cons_ensure, streamLoop_embedLog,
        List.filterMap_cons]
      simp only []
      rw [filterMap_untag]
    · simp only [mainEvents, h]
      rw [upsertLog_cons_embed, upsertLog_cons_ensure,
        streamLoop_upsertLog embed hB _ [] 0 (by simpa using hB),
        List.nil_append, flatten_chunksOf, pointsFrom_map_vector,
        List.map_cons, map_resolve_untag, List.map_cons]

/-! ### C7 -/

/-- C7. A corpus yielding zero retained chunks causes no store operation at
all — no ensure-collection, no upsert — and the run only reports that
there is nothing to index. -/
theorem empty_corpus_no_store_ops (embed : String → Emb) (B : Nat)
    (files : List (String × String)) (h : iter_paragraphs files = []) :
    mainEvents embed B files = [Event.reportNothing]
    ∧ ∀ e ∈ mainEvents embed B files, isStoreEvent e = false := by
  have hm : mainEvents embed B files = [Event.reportNothing] := by
    simp only [mainEvents, h]
  refine ⟨hm, ?_⟩
  intro e he
  rw [hm] at he
  simp at he
  subst he
  rfl

theorem upsert_batches_spec_witness :
    (1 ≤ 2 ∧ iter_paragraphs demoFiles ≠ [])
    ∧ ((upsertLog (mainEvents demoEmbed 2 demoFiles)).length
          = ((iter_paragraphs demoFiles).length + 2 - 1) / 2
      ∧ upsertLog (mainEvents demoEmbed 2 demoFiles) ≠ []
      ∧ (∀ b ∈ (upsertLog (mainEvents demoEmbed 2 demoFiles)).dropLast,
          b.length = 2)
      ∧ (∀ b, (upsertLog (mainEvents demoEmbed 2 demoFiles)).getLast? = some b →
          b.length = if (iter_paragraphs demoFiles).length % 2 = 0 then 2
            else (iter_paragraphs demoFiles).length % 2)) :=
  ⟨⟨by decide, by decide⟩,
    upsert_batches_spec demoEmbed 2 demoFiles (by decide) (by decide)⟩

theorem probe_embedding_reused_witness :
    1 ≤ 2
    ∧ (embedLog (mainEvents demoEmbed 2 demoFiles) = iter_paragraphs demoFiles
      ∧ (upsertLog (mainEvents demoEmbed 2 demoFiles)).flatten.map
            PointStruct.vector
          = (iter_paragraphs demoFiles).map (fun c => demoEmbed c.text)) :=
  ⟨by decide, probe_embedding_reused demoEmbed 2 demoFiles (by decide)⟩

theorem empty_corpus_no_store_ops_witness :
    iter_paragraphs emptyFiles = []
    ∧ (mainEvents demoEmbed 3 emptyFiles = [Event.reportNothing]
      ∧ ∀ e ∈ mainEvents demoEmbed 3 emptyFiles, isStoreEvent e = false) :=
  ⟨by decide, empty_corpus_no_store_ops demoEmbed 3 emptyFiles (by decide)⟩

end Lectio

